import Mathlib

/-!
Shallow embedding of the workspace dependency scheduler and execution engine
of `src/workspace/mod.rs` (struct `WorkspaceManager`), together with the
error type of `src/error.rs` (the variants the workspace module uses).

Pure control flow is translated directly; filesystem and subprocess effects
are made explicit parameters (e.g. the per-member command outcome becomes a
function `WorkspaceMember → Except CyrusError Unit` standing for
`run_in_member`, whose success or failure is decided by the spawned
subprocess).
-/

namespace Cyrus

/-- A single apostrophe character, used to build the exact error message
strings of the source (`format!("Member '{}' ...", name)`). -/
def sq : String := String.singleton (Char.ofNat 39)

/-- `WorkspaceMember` from `src/workspace/mod.rs` lines 26-33.  Paths are
modelled as strings. -/
structure WorkspaceMember where
  name : String
  path : String
  language : String
  enabled : Bool
  build_order : Option Nat
  dependencies : List String
deriving DecidableEq, Repr

/-- `WorkspaceScript` from `src/workspace/mod.rs` lines 50-57. -/
structure WorkspaceScript where
  command : String
  description : String
  run_in_members : List String
  run_parallel : Bool
  continue_on_error : Bool
deriving DecidableEq, Repr

/-- The variants of `CyrusError` (`src/error.rs`) that the workspace module
constructs: `Workspace { message }` and `CommandFailed { command, code }`.
Notably there is no variant carrying a list of member names. -/
inductive CyrusError where
  | Workspace (message : String)
  | CommandFailed (command : String) (code : Option Int)
deriving DecidableEq, Repr

/-- `Workspace` from `src/workspace/mod.rs` lines 12-23.  The script map
(`HashMap<String, WorkspaceScript>`) is modelled as an association list,
the shared config is reduced to the fields the modelled operations read,
and timestamps are abstract `Nat` instants. -/
structure Workspace where
  name : String
  description : String
  root_path : String
  members : List WorkspaceMember
  scripts : List (String × WorkspaceScript)
  created_at : Nat
  updated_at : Nat
deriving DecidableEq, Repr

/-- `WorkspaceManager` (`src/workspace/mod.rs` lines 80-82). -/
structure WorkspaceManager where
  current_workspace : Option Workspace
deriving DecidableEq, Repr

/-- The fixed message of the cycle error produced by `calculate_build_order`
(`src/workspace/mod.rs` line 611). -/
def circularDependencyMessage : String :=
  "Circular dependency detected in workspace members"

/-!
## Dependency scheduler

`calculate_build_order` (`src/workspace/mod.rs` lines 588-624) keeps a
vector `remaining` of enabled members and a set `processed` of names.  One
pass of the inner `for` loop over `remaining` is `scanBatch`: it appends a
member to the current batch and inserts its name into `processed` as soon
as all of its dependency names are in `processed` — note that `processed`
is updated *during* the scan, exactly as in the source.
-/

/-- One pass of the inner loop of `calculate_build_order`
(lines 598-607): returns the batch collected by this pass and the updated
`processed` set (a list used as a set of names). -/
def scanBatch : List WorkspaceMember → List String →
    List WorkspaceMember × List String
  | [], processed => ([], processed)
  | m :: rest, processed =>
    if m.dependencies.all (fun dep => processed.contains dep) then
      let r := scanBatch rest (m.name :: processed)
      (m :: r.1, r.2)
    else
      scanBatch rest processed

theorem scanBatch_processed_mono {rest : List WorkspaceMember}
    {processed : List String} {n : String} (h : n ∈ processed) :
    n ∈ (scanBatch rest processed).2 := by
  induction rest generalizing processed with
  | nil => simpa [scanBatch] using h
  | cons m rest ih =>
    simp only [scanBatch]
    split
    · exact ih (List.mem_cons_of_mem _ h)
    · exact ih h

theorem scanBatch_batch_mem {rest : List WorkspaceMember}
    {processed : List String} {b : WorkspaceMember}
    (h : b ∈ (scanBatch rest processed).1) : b ∈ rest := by
  induction rest generalizing processed with
  | nil => simp [scanBatch] at h
  | cons m rest ih =>
    simp only [scanBatch] at h
    revert h
    split
    · intro h
      rcases List.mem_cons.mp h with h | h
      · simp [h]
      · exact List.mem_cons_of_mem _ (ih h)
    · intro h
      exact List.mem_cons_of_mem _ (ih h)

theorem scanBatch_batch_name_processed {rest : List WorkspaceMember}
    {processed : List String} {b : WorkspaceMember}
    (h : b ∈ (scanBatch rest processed).1) :
    b.name ∈ (scanBatch rest processed).2 := by
  induction rest generalizing processed with
  | nil => simp [scanBatch] at h
  | cons m rest ih =>
    simp only [scanBatch] at h ⊢
    revert h
    split
    · intro h
      rcases List.mem_cons.mp h with h | h
      · subst h
        exact scanBatch_processed_mono (List.mem_cons_self _ _)
      · exact ih h
    · intro h
      exact ih h

/-- If some element of a list fails the predicate, filtering strictly
shrinks the list. -/
theorem length_filter_lt_of_exists_not {α : Type} (p : α → Bool)
    (l : List α) (h : ∃ x ∈ l, p x = false) :
    (l.filter p).length < l.length := by
  induction l with
  | nil => simp at h
  | cons a l ih =>
    rcases h with ⟨x, hx, hpx⟩
    rcases List.mem_cons.mp hx with rfl | hx
    · simp only [List.filter, hpx, List.length_cons]
      exact Nat.lt_succ_of_le (List.length_filter_le _ _)
    · by_cases hp : p a = true
      · simpa [List.filter, hp] using ih ⟨x, hx, hpx⟩
      · simp only [List.filter, Bool.not_eq_true] at hp ⊢
        rw [hp]
        exact Nat.lt_succ_of_lt (ih ⟨x, hx, hpx⟩)

theorem remaining_shrinks (remaining : List WorkspaceMember)
    (processed : List String)
    (h : ¬(scanBatch remaining processed).1.isEmpty = true) :
    (remaining.filter
        (fun m => !((scanBatch remaining processed).2.contains m.name))).length
      < remaining.length := by
  rcases hb : (scanBatch remaining processed).1 with _ | ⟨b, bs⟩
  · rw [hb] at h; simp at h
  · have hbmem : b ∈ (scanBatch remaining processed).1 := by
      rw [hb]; exact List.mem_cons_self _ _
    refine length_filter_lt_of_exists_not _ _
      ⟨b, scanBatch_batch_mem hbmem, ?_⟩
    have hn : b.name ∈ (scanBatch remaining processed).2 :=
      scanBatch_batch_name_processed hbmem
    simp [List.contains, List.elem_iff, hn]

/-- The outer `while` loop of `calculate_build_order` (lines 593-621):
scan a batch; if it is empty while members remain, fail with the
circular-dependency error; otherwise drop the processed members from
`remaining` and continue. -/
def buildOrderLoop (remaining : List WorkspaceMember)
    (processed : List String) :
    Except CyrusError (List (List WorkspaceMember)) :=
  if remaining.isEmpty then
    .ok []
  else
    if h : (scanBatch remaining processed).1.isEmpty then
      .error (.Workspace circularDependencyMessage)
    else
      (buildOrderLoop
          (remaining.filter
            (fun m => !((scanBatch remaining processed).2.contains m.name)))
          (scanBatch remaining processed).2).map
        (fun rest => (scanBatch remaining processed).1 :: rest)
termination_by remaining.length
decreasing_by
  exact remaining_shrinks remaining processed h

/-- `WorkspaceManager::calculate_build_order`
(`src/workspace/mod.rs` lines 588-624). -/
def calculate_build_order (members : List WorkspaceMember) :
    Except CyrusError (List (List WorkspaceMember)) :=
  buildOrderLoop (members.filter (fun m => m.enabled)) []

/-- Member A of spec scenario 1: no dependencies, enabled. -/
def mA : WorkspaceMember :=
  ⟨"A", "a", "rust", true, none, []⟩

/-- Member B of spec scenario 1: depends on A, enabled. -/
def mB : WorkspaceMember :=
  ⟨"B", "b", "rust", true, none, ["A"]⟩

/-- Member C of spec scenario 1: depends on B, enabled. -/
def mC : WorkspaceMember :=
  ⟨"C", "c", "rust", true, none, ["B"]⟩

/-- A disabled member named D. -/
def mD : WorkspaceMember :=
  ⟨"D", "d", "rust", false, none, []⟩

/-- An enabled member X whose only dependency names the disabled member
D. -/
def mX : WorkspaceMember :=
  ⟨"X", "x", "rust", true, none, ["D"]⟩

/-- An enabled member Y whose only dependency names no member at all. -/
def mY : WorkspaceMember :=
  ⟨"Y", "y", "rust", true, none, ["Z"]⟩

/-- Member A of spec scenario 2: depends on B, forming a two-cycle. -/
def cA : WorkspaceMember :=
  ⟨"A", "a", "rust", true, none, ["B"]⟩

/-- Member B of spec scenario 2: depends on A, forming a two-cycle. -/
def cB : WorkspaceMember :=
  ⟨"B", "b", "rust", true, none, ["A"]⟩

/-- Registry listing B before A, where B depends on A. -/
def mA4 : WorkspaceMember :=
  ⟨"A", "a", "rust", true, none, []⟩

/-- The member B of the `[B, A]` registry, depending on A. -/
def mB4 : WorkspaceMember :=
  ⟨"B", "b", "rust", true, none, ["A"]⟩

/-!
## Execution engine

`run_in_member` (lines 545-586) spawns a subprocess in the member's
directory and maps a non-zero exit status to `CommandFailed`; its result
is abstracted as a function `outcome : WorkspaceMember → Except CyrusError
Unit`.  The engine entry points below are modelled on their success-path
invocation structure (an `EngineRun` per engine call) and on the pure
outcome-aggregation logic, both translated from the source.
-/

/-- One engine invocation: either one `run_parallel` call over a list of
members, or one `run_in_member`/sequential step for a single member. -/
inductive EngineRun where
  | par (memberNames : List String) (command : String)
  | single (memberName : String) (command : String)
deriving DecidableEq, Repr

/-- The member names started by an engine run. -/
def runMembers : EngineRun → List String
  | .par ns _ => ns
  | .single n _ => [n]

/-- The engine runs `build_workspace` issues for one batch
(`src/workspace/mod.rs` lines 290-300): a single parallel run when the
`parallel` flag is set and the batch has more than one member, otherwise
one `run_in_member` per batch member, in batch order. -/
def batchRuns (parallel : Bool) (command : String)
    (batch : List WorkspaceMember) : List EngineRun :=
  if parallel && batch.length > 1 then
    [.par (batch.map (fun m => m.name)) command]
  else
    batch.map (fun m => .single m.name command)

/-- The sequence of engine runs issued by `WorkspaceManager::build_workspace`
(lines 282-304) when every command succeeds: the computed batches, in
order, each expanded by `batchRuns`. -/
def build_workspace_runs (members : List WorkspaceMember)
    (parallel : Bool) : Except CyrusError (List EngineRun) :=
  (calculate_build_order members).map
    (fun batches => batches.flatMap (batchRuns parallel "build"))

/-- The sequence of engine runs issued by `WorkspaceManager::test_workspace`
(lines 307-323) when every command succeeds: no build order is computed;
the enabled members are passed to a single `run_parallel` call, or run
sequentially in registry order. -/
def test_workspace_runs (members : List WorkspaceMember)
    (parallel : Bool) : List EngineRun :=
  if parallel then
    [.par ((members.filter (fun m => m.enabled)).map (fun m => m.name))
      "test"]
  else
    (members.filter (fun m => m.enabled)).map
      (fun m => .single m.name "test")

/-- The result-inspection loop of `run_parallel`
(`src/workspace/mod.rs` lines 460-465): return the first failure, else
success.  All results exist before the loop runs (`join_all`). -/
def resultsFirstError : List (Except CyrusError Unit) →
    Except CyrusError Unit
  | [] => .ok ()
  | .ok _ :: rest => resultsFirstError rest
  | .error e :: _ => .error e

/-- `WorkspaceManager::run_parallel` (lines 447-468): all member tasks are
joined, then results are scanned for the first failure. -/
def run_parallel (members : List WorkspaceMember)
    (outcome : WorkspaceMember → Except CyrusError Unit) :
    Except CyrusError Unit :=
  resultsFirstError (members.map outcome)

/-- The result-inspection loop of `run_parallel_with_error_handling`
(lines 496-505): record failures; when `continue_on_error` is false,
return the first failure immediately, else keep scanning and report
whether any failure occurred. -/
def resultsLoop : List (Except CyrusError Unit) → Bool → Bool →
    Except CyrusError Bool
  | [], _, has_errors => .ok has_errors
  | .ok _ :: rest, coe, has_errors => resultsLoop rest coe has_errors
  | .error e :: rest, coe, _ =>
    if coe then resultsLoop rest coe true
    else .error e

/-- `WorkspaceManager::run_parallel_with_error_handling` (lines 483-514):
join all member tasks, scan results, then apply the final
`has_errors && !continue_on_error` check. -/
def run_parallel_with_error_handling (members : List WorkspaceMember)
    (outcome : WorkspaceMember → Except CyrusError Unit)
    (continue_on_error : Bool) : Except CyrusError Unit :=
  match resultsLoop (members.map outcome) continue_on_error false with
  | .error e => .error e
  | .ok has_errors =>
    if has_errors && !continue_on_error then
      .error (.Workspace "Some workspace operations failed")
    else
      .ok ()

/-- Enabled member E, whose command succeeds in the C5 scenario. -/
def mE5 : WorkspaceMember :=
  ⟨"E", "e", "rust", true, none, []⟩

/-- Enabled member F, whose command exits with code 1 in the C5
scenario. -/
def mF5 : WorkspaceMember :=
  ⟨"F", "f", "rust", true, none, []⟩

/-- Enabled member G, whose command exits with code 2 in the C5
scenario. -/
def mG5 : WorkspaceMember :=
  ⟨"G", "g", "rust", true, none, []⟩

/-- Concrete per-member outcomes for the C5 scenario: E succeeds, F and G
fail with distinct exit codes. -/
def outcome5 : WorkspaceMember → Except CyrusError Unit := fun m =>
  if m.name = "E" then .ok ()
  else if m.name = "F" then .error (.CommandFailed "build" (some 1))
  else .error (.CommandFailed "build" (some 2))

/-- The loop body of `run_sequential_with_error_handling`
(`src/workspace/mod.rs` lines 523-542), tracking the list of members for
which `run_in_member` is invoked, in invocation order, together with the
returned result.  On a failure with `continue_on_error = false` the loop
returns that failure at once; at the end the dead
`has_errors && !continue_on_error` check from the source is applied. -/
def seqLoop (outcome : WorkspaceMember → Except CyrusError Unit)
    (coe : Bool) :
    List WorkspaceMember → Bool → List String × Except CyrusError Unit
  | [], has_errors =>
    ([], if has_errors && !coe then
        .error (.Workspace "Some workspace operations failed")
      else .ok ())
  | m :: rest, has_errors =>
    match outcome m with
    | .ok _ =>
      let r := seqLoop outcome coe rest has_errors
      (m.name :: r.1, r.2)
    | .error e =>
      if coe then
        let r := seqLoop outcome coe rest true
        (m.name :: r.1, r.2)
      else
        ([m.name], .error e)

/-- `WorkspaceManager::run_sequential_with_error_handling`
(lines 516-543). -/
def run_sequential_with_error_handling (members : List WorkspaceMember)
    (outcome : WorkspaceMember → Except CyrusError Unit)
    (continue_on_error : Bool) :
    List String × Except CyrusError Unit :=
  seqLoop outcome continue_on_error members false

/-- `WorkspaceManager::run_sequential` (lines 470-481): run each member in
list order, propagating the first failure immediately (`.await?`).  The
first component is the list of members attempted, in order. -/
def run_sequential (outcome : WorkspaceMember → Except CyrusError Unit) :
    List WorkspaceMember → List String × Except CyrusError Unit
  | [] => ([], .ok ())
  | m :: rest =>
    match outcome m with
    | .ok _ =>
      let r := run_sequential outcome rest
      (m.name :: r.1, r.2)
    | .error e => ([m.name], .error e)

/-- Enabled member H, whose command succeeds in the C6 scenario. -/
def mH6 : WorkspaceMember :=
  ⟨"H", "h", "rust", true, none, []⟩

/-- Enabled member I, whose command fails in the C6 scenario. -/
def mI6 : WorkspaceMember :=
  ⟨"I", "i", "rust", true, none, []⟩

/-- Enabled member J, never reached in the aborting C6 scenario. -/
def mJ6 : WorkspaceMember :=
  ⟨"J", "j", "rust", true, none, []⟩

/-- Concrete per-member outcomes for the C6 scenario: H succeeds, I fails
with exit code 7, J would succeed. -/
def outcome6 : WorkspaceMember → Except CyrusError Unit := fun m =>
  if m.name = "I" then .error (.CommandFailed "build" (some 7))
  else .ok ()

/-- `WorkspaceManager::add_member` (lines 146-210). -/
def add_member (mgr : WorkspaceManager) (name : String) (path : String)
    (language : Option String) (create_project : Bool)
    (member_path_exists : Bool) (detected : Option String) (now : Nat) :
    WorkspaceManager × Except CyrusError Unit :=
  match mgr.current_workspace with
  | none => (mgr, .error (.Workspace "No workspace loaded"))
  | some w =>
    if w.members.any (fun m => m.name == name) then
      (mgr, .error (.Workspace
        ("Member " ++ sq ++ name ++ sq ++ " already exists")))
    else if !create_project && !member_path_exists then
      (mgr, .error (.Workspace ("Project path does not exist: " ++ path)))
    else
      let detected_language :=
        match language with
        | some lang => lang
        | none =>
          match detected with
          | some l => l
          | none => "unknown"
      let member : WorkspaceMember :=
        ⟨name, path, detected_language, true, none, []⟩
      let w2 : Workspace :=
        { w with members := w.members ++ [member], updated_at := now }
      (⟨some w2⟩, .ok ())

/-- `WorkspaceManager::remove_member` (lines 213-237). -/
def remove_member (mgr : WorkspaceManager) (name : String)
    (delete_files : Bool) (now : Nat) :
    WorkspaceManager × Except CyrusError Unit :=
  match mgr.current_workspace with
  | none => (mgr, .error (.Workspace "No workspace loaded"))
  | some w =>
    match w.members.findIdx? (fun m => m.name == name) with
    | none => (mgr, .error (.Workspace
        ("Member " ++ sq ++ name ++ sq ++ " not found")))
    | some i =>
      let w2 : Workspace :=
        { w with members := w.members.eraseIdx i, updated_at := now }
      (⟨some w2⟩, .ok ())

/-- A one-member workspace used by the C7 witness. -/
def ws7 : Workspace :=
  ⟨"w7", "demo workspace", "w7root",
    [⟨"K", "k", "rust", true, none, []⟩], [], 0, 0⟩

/-- A manager holding `ws7`. -/
def mgr7 : WorkspaceManager := ⟨some ws7⟩

/-- Accumulator loop of whitespace tokenization (the semantics of Rust's
`str::split_whitespace`): split on whitespace, discarding empty tokens. -/
def tokensAux : List Char → List Char → List String
  | [], cur => if cur.isEmpty then [] else [String.mk cur.reverse]
  | c :: cs, cur =>
    if c.isWhitespace then
      if cur.isEmpty then tokensAux cs []
      else String.mk cur.reverse :: tokensAux cs []
    else
      tokensAux cs (c :: cur)

/-- Rust `str::split_whitespace().collect::&lt;Vec&gt;()` (line 359). -/
def split_whitespace (s : String) : List String :=
  tokensAux s.data []

/-- Observable result of a `run_script` call: a Rust panic, an `Err`, or
`Ok` together with the members on which the command was executed in
order. -/
inductive ScriptResult where
  | panicked (message : String)
  | failed (e : CyrusError)
  | completed (executed : List String)
deriving DecidableEq, Repr

/-- `workspace.scripts.get(script_name)` (line 344), on the association
list modelling the script map. -/
def lookupScript (scripts : List (String × WorkspaceScript))
    (name : String) : Option WorkspaceScript :=
  (scripts.find? (fun p => p.1 == name)).map (fun p => p.2)

/-- The effective target members of a script (lines 349-355): all enabled
members when `run_in_members` is empty, otherwise the enabled members
whose name appears in `run_in_members`, in registry order. -/
def effective_targets (w : Workspace) (script : WorkspaceScript) :
    List WorkspaceMember :=
  if script.run_in_members.isEmpty then
    w.members.filter (fun m => m.enabled)
  else
    w.members.filter
      (fun m => script.run_in_members.contains m.name && m.enabled)

/-- `WorkspaceManager::run_script` (lines 341-370).  The command tokens
are computed exactly as in the source; `command_parts[0]` on an empty
token list is the out-of-bounds panic.  The chosen engine path is driven
by the script's `run_parallel` and `continue_on_error` flags, with
`outcome` abstracting `run_in_member`. -/
def run_script (w : Workspace) (script_name : String)
    (outcome : WorkspaceMember → Except CyrusError Unit) : ScriptResult :=
  match lookupScript w.scripts script_name with
  | none => .failed (.Workspace
      ("Script " ++ sq ++ script_name ++ sq ++ " not found"))
  | some script =>
    let target_members := effective_targets w script
    match split_whitespace script.command with
    | [] => .panicked "index out of bounds: the len is 0 but the index is 0"
    | _ :: _ =>
      if script.run_parallel then
        match run_parallel_with_error_handling target_members outcome
            script.continue_on_error with
        | .ok _ => .completed (target_members.map (fun m => m.name))
        | .error e => .failed e
      else
        let r := run_sequential_with_error_handling target_members outcome
          script.continue_on_error
        match r.2 with
        | .ok _ => .completed r.1
        | .error e => .failed e

/-- Replace a member's dependency list, leaving every other field
unchanged. -/
def setDeps (f : WorkspaceMember → List String) (m : WorkspaceMember) :
    WorkspaceMember :=
  { m with dependencies := f m }

/-- An outcome function under which every member's command succeeds. -/
def okOutcome : WorkspaceMember → Except CyrusError Unit :=
  fun _ => .ok ()

/-- Spec scenario 5: the `lint` script targeting only member A,
sequential, aborting on error. -/
def lintScript : WorkspaceScript :=
  ⟨"echo ok", "lint only A", ["A"], false, false⟩

/-- Member A of the script scenario; it depends on B, yet the script
still runs only on A. -/
def mA8 : WorkspaceMember :=
  ⟨"A", "a", "rust", true, none, ["B"]⟩

/-- Member B of the script scenario. -/
def mB8 : WorkspaceMember :=
  ⟨"B", "b", "rust", true, none, []⟩

/-- Member C of the script scenario. -/
def mC8 : WorkspaceMember :=
  ⟨"C", "c", "rust", true, none, []⟩

/-- The script-scenario workspace: members A, B, C and the single script
`lint`. -/
def wsDemo : Workspace :=
  ⟨"demo", "script demo", "root", [mA8, mB8, mC8],
    [("lint", lintScript)], 0, 0⟩

/-- A filesystem operation relevant to descriptor persistence. -/
inductive FsOp where
  | write (path : String) (content : String)
  | rename (src : String) (dst : String)
deriving DecidableEq, Repr

/-- The filesystem-operation trace of `save_workspace` (lines 415-424)
on the successful-serialization path: one direct `std::fs::write` to the
descriptor file under the workspace root, with no temp file and no
rename. -/
def save_workspace_ops (root : String) (content : String) : List FsOp :=
  [.write (root ++ "/cyrus-workspace.toml") content]

/-- The content left at the target of a truncating write that is
interrupted after `k` bytes: the prefix of the new content, regardless of
what the file held before. -/
def interrupted_write (content : String) (k : Nat) : String :=
  String.mk (content.data.take k)

/-- Does a trace write directly to `target` (rather than only renaming
onto it)? -/
def writes_directly_to (ops : List FsOp) (target : String) : Bool :=
  ops.any (fun op =>
    match op with
    | .write p _ => p == target
    | .rename _ _ => false)

/-- A workspace holding one script whose command is blank (three
spaces). -/
def wsBroken : Workspace :=
  ⟨"wb", "broken script demo", "root", [],
    [("broken", ⟨"   ", "blank command", [], false, false⟩)], 0, 0⟩

theorem buildOrderLoop_nil (processed : List String) :
    buildOrderLoop [] processed = .ok [] := by
  rw [buildOrderLoop]
  simp

theorem buildOrderLoop_cycle (remaining : List WorkspaceMember)
    (processed : List String) (h1 : remaining ≠ [])
    (h2 : (scanBatch remaining processed).1 = []) :
    buildOrderLoop remaining processed =
      .error (.Workspace circularDependencyMessage) := by
  rw [buildOrderLoop]
  simp [List.isEmpty_iff, h1, h2]

theorem buildOrderLoop_step (remaining : List WorkspaceMember)
    (processed : List String) (h1 : remaining ≠ [])
    (h2 : (scanBatch remaining processed).1 ≠ []) :
    buildOrderLoop remaining processed =
      (buildOrderLoop
          (remaining.filter
            (fun m => !((scanBatch remaining processed).2.contains m.name)))
          (scanBatch remaining processed).2).map
        (fun rest => (scanBatch remaining processed).1 :: rest) := by
  rw [buildOrderLoop]
  simp [List.isEmpty_iff, h1, h2]

/-- Every member of every batch returned by the loop comes from the
`remaining` list it started from. -/
theorem buildOrderLoop_ok_mem (remaining : List WorkspaceMember)
    (processed : List String) (batches : List (List WorkspaceMember))
    (hok : buildOrderLoop remaining processed = .ok batches) :
    ∀ b ∈ batches, ∀ m ∈ b, m ∈ remaining := by
  by_cases h1 : remaining = []
  · subst h1
    rw [buildOrderLoop_nil] at hok
    cases hok
    simp
  · by_cases h2 : (scanBatch remaining processed).1 = []
    · rw [buildOrderLoop_cycle remaining processed h1 h2] at hok
      cases hok
    · rw [buildOrderLoop_step remaining processed h1 h2] at hok
      rcases hrec : buildOrderLoop
          (remaining.filter
            (fun m => !((scanBatch remaining processed).2.contains m.name)))
          (scanBatch remaining processed).2 with e | rest
      · rw [hrec] at hok
        cases hok
      · rw [hrec] at hok
        simp only [Except.map, Except.ok.injEq] at hok
        subst hok
        have ih := buildOrderLoop_ok_mem
          (remaining.filter
            (fun m => !((scanBatch remaining processed).2.contains m.name)))
          (scanBatch remaining processed).2 rest hrec
        intro b hb m hm
        rcases List.mem_cons.mp hb with rfl | hb
        · exact scanBatch_batch_mem hm
        · exact List.mem_of_mem_filter (ih b hb m hm)
termination_by remaining.length
decreasing_by
  exact remaining_shrinks remaining processed (by simp [List.isEmpty_iff, h2])

/-- Protection invariant: if every member carrying a name in `NS` has a
dependency whose name is in `NS`, and no name of `NS` is processed yet,
then a scan pass processes no name of `NS`. -/
theorem scanBatch_NS_protect (NS : List String)
    (rest : List WorkspaceMember) (processed : List String)
    (hns : ∀ m ∈ rest, m.name ∈ NS → ∃ d ∈ m.dependencies, d ∈ NS)
    (hdisj : ∀ n ∈ NS, n ∉ processed) :
    ∀ n ∈ NS, n ∉ (scanBatch rest processed).2 := by
  induction rest generalizing processed with
  | nil => simpa [scanBatch] using hdisj
  | cons m rest ih =>
    simp only [scanBatch]
    split
    case isTrue hall =>
      have hmn : m.name ∉ NS := by
        intro hin
        rcases hns m (List.mem_cons_self _ _) hin with ⟨d, hd, hdNS⟩
        have hcont : (m.dependencies.all
            (fun dep => processed.contains dep)) = true := hall
        have hdp : d ∈ processed := by
          have := List.all_eq_true.mp hcont d hd
          simpa [List.contains, List.elem_iff] using this
        exact hdisj d hdNS hdp
      exact ih (m.name :: processed)
        (fun m' hm' => hns m' (List.mem_cons_of_mem _ hm'))
        (fun n hn hmem => by
          rcases List.mem_cons.mp hmem with h | h
          · exact hmn (h ▸ hn)
          · exact hdisj n hn h)
    case isFalse _ =>
      exact ih processed
        (fun m' hm' => hns m' (List.mem_cons_of_mem _ hm')) hdisj

/-- Blocked-set lemma: a nonempty set of names `NS` such that every
remaining member carrying an `NS` name depends on some `NS` name, none of
which is processed, makes the loop fail with the circular-dependency
error. -/
theorem buildOrderLoop_stuck (NS : List String)
    (remaining : List WorkspaceMember) (processed : List String)
    (hns : ∀ m ∈ remaining, m.name ∈ NS → ∃ d ∈ m.dependencies, d ∈ NS)
    (hdisj : ∀ n ∈ NS, n ∉ processed)
    (hmem : ∃ m ∈ remaining, m.name ∈ NS) :
    buildOrderLoop remaining processed =
      .error (.Workspace circularDependencyMessage) := by
  have h1 : remaining ≠ [] := by
    rcases hmem with ⟨m, hm, _⟩
    intro h
    subst h
    simp at hm
  by_cases h2 : (scanBatch remaining processed).1 = []
  · exact buildOrderLoop_cycle remaining processed h1 h2
  · rw [buildOrderLoop_step remaining processed h1 h2]
    have hdisj2 : ∀ n ∈ NS, n ∉ (scanBatch remaining processed).2 :=
      scanBatch_NS_protect NS remaining processed hns hdisj
    have hns2 : ∀ m ∈ remaining.filter
        (fun m => !((scanBatch remaining processed).2.contains m.name)),
        m.name ∈ NS → ∃ d ∈ m.dependencies, d ∈ NS :=
      fun m hm => hns m (List.mem_of_mem_filter hm)
    have hmem2 : ∃ m ∈ remaining.filter
        (fun m => !((scanBatch remaining processed).2.contains m.name)),
        m.name ∈ NS := by
      rcases hmem with ⟨m, hm, hmn⟩
      refine ⟨m, List.mem_filter.mpr ⟨hm, ?_⟩, hmn⟩
      have hnot : m.name ∉ (scanBatch remaining processed).2 :=
        hdisj2 m.name hmn
      simpa [List.contains, List.elem_iff] using hnot
    rw [buildOrderLoop_stuck NS
      (remaining.filter
        (fun m => !((scanBatch remaining processed).2.contains m.name)))
      (scanBatch remaining processed).2 hns2 hdisj2 hmem2]
    rfl
termination_by remaining.length
decreasing_by
  exact remaining_shrinks remaining processed (by simp [List.isEmpty_iff, h2])

/-!
## Claims C1-C3: the dependency scheduler
-/

/-- C1: the claim says that for members A (no deps), B (deps [A]),
C (deps [B]), all enabled, `calculate_build_order` returns the three
batches `[[A], [B], [C]]`, and in general that a dependency always lands
in a strictly earlier batch than its dependent.  The code instead inserts
each placed name into `processed` *during* the scan (line 604), so a
member whose dependency appears earlier in the same pass is placed into
the same batch: the A, B, C chain collapses into the single batch
`[[A, B, C]]`, where B shares a batch with its dependency A.  This result
evaluates the source translation at that failing input. -/
theorem calculate_build_order_chain_single_batch :
    calculate_build_order [mA, mB, mC] = .ok [[mA, mB, mC]] ∧
    ([[mA, mB, mC]] : List (List WorkspaceMember)) ≠ [[mA], [mB], [mC]] := by
  constructor
  · have h1 : calculate_build_order [mA, mB, mC] =
        buildOrderLoop [mA, mB, mC] [] := rfl
    have h2 := buildOrderLoop_step [mA, mB, mC] [] (by simp) (by decide)
    have h3 : buildOrderLoop
        ([mA, mB, mC].filter
          (fun m => !((scanBatch [mA, mB, mC] []).2.contains m.name)))
        (scanBatch [mA, mB, mC] []).2 =
        buildOrderLoop [] ["C", "B", "A"] := rfl
    rw [h1, h2, h3, buildOrderLoop_nil]
    rfl
  · decide

/-- C2 (counterexample): the claim says an enabled member whose
dependency set names only disabled members is treated as
satisfied-by-absence and is still placed into a batch.  On the code, a
disabled member's name never enters `processed`, so the dependent is
never placed and the call fails with the circular-dependency error. -/
theorem calculate_build_order_disabled_dep_errors :
    calculate_build_order [mD, mX] =
      .error (.Workspace circularDependencyMessage) := by
  have h1 : calculate_build_order [mD, mX] = buildOrderLoop [mX] [] := rfl
  rw [h1, buildOrderLoop_cycle [mX] [] (by simp) (by decide)]

/-- C2 (amended): `calculate_build_order` excludes disabled members from
every returned batch (every batched member is an enabled member of the
input), but an enabled member whose dependency names only disabled or
absent members is never treated as satisfied: it is never placed and the
whole call fails with the circular-dependency error. -/
theorem calculate_build_order_disabled_excluded_and_blocking
    (members : List WorkspaceMember)
    (batches : List (List WorkspaceMember)) (X : WorkspaceMember)
    (d : String) :
    (calculate_build_order members = .ok batches →
      ∀ b ∈ batches, ∀ m ∈ b, m ∈ members ∧ m.enabled = true) ∧
    (X ∈ members → X.enabled = true → d ∈ X.dependencies →
      (∀ m ∈ members, m.enabled = true → m.name ≠ d) →
      (∀ m ∈ members, m.enabled = true → m.name = X.name →
        d ∈ m.dependencies) →
      calculate_build_order members =
        .error (.Workspace circularDependencyMessage)) := by
  constructor
  · intro hok b hb m hm
    have hmem := buildOrderLoop_ok_mem _ [] batches hok b hb m hm
    have := List.mem_filter.mp hmem
    exact ⟨this.1, this.2⟩
  · intro hX hXe hd hnone hsame
    refine buildOrderLoop_stuck [X.name, d] _ [] ?_ (by simp) ?_
    · intro m hm hmn
      have hmem := List.mem_filter.mp hm
      rcases List.mem_cons.mp hmn with h | h
      · exact ⟨d, hsame m hmem.1 hmem.2 h, by simp⟩
      · exact absurd (List.mem_singleton.mp h) (hnone m hmem.1 hmem.2)
    · exact ⟨X, List.mem_filter.mpr ⟨hX, hXe⟩, by simp⟩

/-- C2 (witness): for an enabled member Y whose single dependency `"Z"`
names no member at all, the amended theorem applies and the call fails
with the circular-dependency error. -/
theorem calculate_build_order_disabled_excluded_and_blocking_witness :
    calculate_build_order [mY] =
      .error (.Workspace circularDependencyMessage) :=
  (calculate_build_order_disabled_excluded_and_blocking [mY] [] mY "Z").2
    (by decide) (by decide) (by decide) (by decide) (by decide)

/-- C3 (counterexample): the claim says the cycle failure for
A (deps [B]), B (deps [A]) is `CircularDependency{["A","B"]}`, reporting
every unresolved member.  The code fails with
`CyrusError::Workspace` carrying the fixed message
`"Circular dependency detected in workspace members"`, which names no
member: it does not even contain the characters `A` or `B`. -/
theorem calculate_build_order_cycle_error_names_no_members :
    calculate_build_order [cA, cB] =
      .error (.Workspace circularDependencyMessage) ∧
    circularDependencyMessage.data.contains (Char.ofNat 65) = false ∧
    circularDependencyMessage.data.contains (Char.ofNat 66) = false := by
  refine ⟨?_, by decide, by decide⟩
  have h1 : calculate_build_order [cA, cB] = buildOrderLoop [cA, cB] [] := rfl
  rw [h1, buildOrderLoop_cycle [cA, cB] [] (by simp) (by decide)]

/-- C3 (amended): for every member list containing a cycle among its
enabled members (a nonempty set `cyc` of enabled members, with pairwise
distinct names among enabled members, each depending on the name of some
member of `cyc`), `calculate_build_order` fails — but with the generic
`Workspace` error carrying the fixed message
`"Circular dependency detected in workspace members"`, which does not
name the unresolved members. -/
theorem calculate_build_order_cycle_fails_generic
    (members cyc : List WorkspaceMember)
    (hne : cyc ≠ [])
    (hsub : ∀ c ∈ cyc, c ∈ members ∧ c.enabled = true)
    (hedge : ∀ c ∈ cyc, ∃ d ∈ c.dependencies, ∃ c2 ∈ cyc, c2.name = d)
    (huniq : ∀ m ∈ members, ∀ m2 ∈ members, m.enabled = true →
      m2.enabled = true → m.name = m2.name → m = m2) :
    calculate_build_order members =
      .error (.Workspace circularDependencyMessage) := by
  refine buildOrderLoop_stuck (cyc.map (fun c => c.name)) _ [] ?_ (by simp) ?_
  · intro m hm hmn
    have hmem := List.mem_filter.mp hm
    rcases List.mem_map.mp hmn with ⟨c, hc, hcn⟩
    have hcsub := hsub c hc
    have hmc : m = c :=
      huniq m hmem.1 c hcsub.1 hmem.2 hcsub.2 hcn.symm
    rcases hedge c hc with ⟨d, hd, c2, hc2, hc2n⟩
    have hd2 : d ∈ m.dependencies := by rw [hmc]; exact hd
    exact ⟨d, hd2, List.mem_map.mpr ⟨c2, hc2, hc2n⟩⟩
  · rcases cyc with _ | ⟨c0, cyc'⟩
    · exact absurd rfl hne
    · have hc0 := hsub c0 (List.mem_cons_self _ _)
      exact ⟨c0, List.mem_filter.mpr ⟨hc0.1, hc0.2⟩,
        List.mem_map.mpr ⟨c0, List.mem_cons_self _ _, rfl⟩⟩

/-- C3 (witness): the amended theorem applied to the concrete two-cycle
A (deps [B]), B (deps [A]). -/
theorem calculate_build_order_cycle_fails_generic_witness :
    calculate_build_order [cA, cB] =
      .error (.Workspace circularDependencyMessage) :=
  calculate_build_order_cycle_fails_generic [cA, cB] [cA, cB]
    (by decide) (by decide) (by decide) (by decide)

/-!
## Claim C4: batch awareness of the build and test entry points
-/

/-- Helper evaluation: for the registry `[B, A]` with B depending on A,
the computed build order is the two batches `[[A], [B]]`. -/
theorem buildOrder_BA_eval :
    calculate_build_order [mB4, mA4] = .ok [[mA4], [mB4]] := by
  have h1 : calculate_build_order [mB4, mA4] =
      buildOrderLoop [mB4, mA4] [] := rfl
  have h2 := buildOrderLoop_step [mB4, mA4] [] (by simp) (by decide)
  have h3 : buildOrderLoop
      ([mB4, mA4].filter
        (fun m => !((scanBatch [mB4, mA4] []).2.contains m.name)))
      (scanBatch [mB4, mA4] []).2 = buildOrderLoop [mB4] ["A"] := rfl
  have h4 := buildOrderLoop_step [mB4] ["A"] (by simp) (by decide)
  have h5 : buildOrderLoop
      ([mB4].filter
        (fun m => !((scanBatch [mB4] ["A"]).2.contains m.name)))
      (scanBatch [mB4] ["A"]).2 = buildOrderLoop [] ["B", "A"] := rfl
  rw [h1, h2, h3, h4, h5, buildOrderLoop_nil]
  rfl

/-- C4 (counterexample): for the registry `[B, A]` where B depends on A,
the computed build order has the two batches `[[A], [B]]`, but
`test_workspace` issues a single parallel engine run over `[B, A]` — one
run instead of one per batch, with B started alongside (and listed before)
its dependency A.  This refutes the claim that `test_workspace` executes
one engine run per `ExecutionBatch` in batch order. -/
theorem test_workspace_single_run_across_batches :
    calculate_build_order [mB4, mA4] = .ok [[mA4], [mB4]] ∧
    test_workspace_runs [mB4, mA4] true = [.par ["B", "A"] "test"] ∧
    (test_workspace_runs [mB4, mA4] true).length ≠ 2 := by
  exact ⟨buildOrder_BA_eval, rfl, by decide⟩

/-- Each batch's engine runs start exactly the batch's members, in batch
order. -/
theorem singleRuns_flat (command : String)
    (batch : List WorkspaceMember) :
    (batch.map (fun m => EngineRun.single m.name command)).flatMap
        runMembers = batch.map (fun m => m.name) := by
  induction batch with
  | nil => rfl
  | cons m rest ih => simp [runMembers] at ih ⊢; exact ih

theorem batchRuns_flat (parallel : Bool) (command : String)
    (batch : List WorkspaceMember) :
    (batchRuns parallel command batch).flatMap runMembers =
      batch.map (fun m => m.name) := by
  rw [batchRuns]
  split
  · simp [runMembers]
  · exact singleRuns_flat command batch

/-- C4 (amended): `build_workspace` is batch-aware: every engine run it
issues stays inside a single batch of the computed build order
(parallelism never spans batches), and flattening the runs reproduces the
batches' members in batch order, for both values of the parallel flag.
`test_workspace`, contrary to the claim, is not batch-aware: it issues a
single engine pass over the enabled members in registry order. -/
theorem build_workspace_runs_respect_batches
    (members : List WorkspaceMember) (parallel : Bool)
    (batches : List (List WorkspaceMember)) (runs : List EngineRun)
    (h1 : calculate_build_order members = .ok batches)
    (h2 : build_workspace_runs members parallel = .ok runs) :
    (∀ r ∈ runs, ∃ b ∈ batches, ∀ n ∈ runMembers r,
      n ∈ b.map (fun m => m.name)) ∧
    runs.flatMap runMembers =
      batches.flatMap (fun b => b.map (fun m => m.name)) := by
  have hruns : runs = batches.flatMap (batchRuns parallel "build") := by
    rw [build_workspace_runs, h1] at h2
    simpa [Except.map] using h2.symm
  subst hruns
  constructor
  · intro r hr
    rcases List.mem_flatMap.mp hr with ⟨b, hb, hrb⟩
    refine ⟨b, hb, ?_⟩
    rw [batchRuns] at hrb
    revert hrb
    split
    · intro hrb
      rcases List.mem_singleton.mp hrb with rfl
      intro n hn
      simpa [runMembers] using hn
    · intro hrb
      rcases List.mem_map.mp hrb with ⟨m, hm, rfl⟩
      intro n hn
      simp only [runMembers, List.mem_singleton] at hn
      subst hn
      exact List.mem_map.mpr ⟨m, hm, rfl⟩
  · rw [List.flatMap_assoc]
    simp only [batchRuns_flat]

/-- C4 (witness): the amended theorem applied to the registry `[B, A]`
with the parallel flag set: the build runs are one single-member run per
batch, in batch order A then B. -/
theorem build_workspace_runs_respect_batches_witness :
    (∀ r ∈ ([.single "A" "build", .single "B" "build"] : List EngineRun),
      ∃ b ∈ [[mA4], [mB4]], ∀ n ∈ runMembers r,
        n ∈ b.map (fun m => m.name)) ∧
    ([.single "A" "build", .single "B" "build"] :
        List EngineRun).flatMap runMembers =
      [[mA4], [mB4]].flatMap (fun b => b.map (fun m => m.name)) := by
  have hbw : build_workspace_runs [mB4, mA4] true =
      .ok [.single "A" "build", .single "B" "build"] := by
    rw [build_workspace_runs, buildOrder_BA_eval]
    rfl
  exact build_workspace_runs_respect_batches [mB4, mA4] true
    [[mA4], [mB4]] [.single "A" "build", .single "B" "build"]
    buildOrder_BA_eval hbw

/-!
## Claims C5-C6: outcome aggregation
-/

theorem resultsLoop_coe_ok (results : List (Except CyrusError Unit))
    (he : Bool) : ∃ b, resultsLoop results true he = .ok b := by
  induction results generalizing he with
  | nil => exact ⟨he, rfl⟩
  | cons r rest ih =>
    cases r with
    | ok _ => exact ih he
    | error e => simpa [resultsLoop] using ih true

theorem resultsLoop_abort (results : List (Except CyrusError Unit)) :
    resultsLoop results false false =
      match resultsFirstError results with
      | .ok _ => .ok false
      | .error e => .error e := by
  induction results with
  | nil => rfl
  | cons r rest ih =>
    cases r with
    | ok _ => simpa [resultsLoop, resultsFirstError] using ih
    | error e => rfl

/-- C5 (amended): after all member tasks have been joined, if any member
failed and `continue_on_error` is false the call fails with the *first*
failed member's own error (the same outcome as the plain `run_parallel`
scan) — there is no aggregate error naming all failed members; if
`continue_on_error` is true the call succeeds despite recorded
failures. -/
theorem run_parallel_with_error_handling_first_failure
    (members : List WorkspaceMember)
    (outcome : WorkspaceMember → Except CyrusError Unit)
    (continue_on_error : Bool) :
    run_parallel_with_error_handling members outcome continue_on_error =
      if continue_on_error then .ok ()
      else run_parallel members outcome := by
  cases continue_on_error with
  | true =>
    rcases resultsLoop_coe_ok (members.map outcome) false with ⟨b, hb⟩
    simp [run_parallel_with_error_handling, hb]
  | false =>
    rw [run_parallel_with_error_handling,
      resultsLoop_abort (members.map outcome)]
    rcases hfe : resultsFirstError (members.map outcome) with e | u
    · simp [run_parallel, hfe]
    · simp [run_parallel, hfe]

/-- C5 (counterexample): with members E (ok), F (exit 1), G (exit 2) and
`continue_on_error = false`, the parallel handler joins all tasks but
then fails with F's individual `CommandFailed` error — not with an
aggregate failure identifying all failed members (F and G).  The only
aggregate-shaped signal in the code, the fixed message
`"Some workspace operations failed"`, is not produced (it is unreachable
when `continue_on_error` is false), and it names no members either. -/
theorem run_parallel_first_error_not_aggregate :
    run_parallel_with_error_handling [mE5, mF5, mG5] outcome5 false =
      .error (.CommandFailed "build" (some 1)) ∧
    (.error (.CommandFailed "build" (some 1)) :
        Except CyrusError Unit) ≠
      .error (.Workspace "Some workspace operations failed") := by
  exact ⟨rfl, by simp⟩

theorem seqLoop_coe_all (outcome : WorkspaceMember → Except CyrusError Unit)
    (members : List WorkspaceMember) (he : Bool) :
    seqLoop outcome true members he =
      (members.map (fun m => m.name), .ok ()) := by
  induction members generalizing he with
  | nil => simp [seqLoop]
  | cons m rest ih =>
    cases houtcome : outcome m with
    | ok _ => simp [seqLoop, houtcome, ih he]
    | error e => simp [seqLoop, houtcome, ih true]

theorem seqLoop_abort (outcome : WorkspaceMember → Except CyrusError Unit)
    (members : List WorkspaceMember) :
    seqLoop outcome false members false = run_sequential outcome members := by
  induction members with
  | nil => rfl
  | cons m rest ih =>
    cases houtcome : outcome m with
    | ok _ => simp [seqLoop, run_sequential, houtcome, ih]
    | error e => simp [seqLoop, run_sequential, houtcome]

/-- C6: in sequential mode the engine invokes `run_in_member` strictly in
list order.  With `continue_on_error = false` it behaves exactly like the
plain `run_sequential` abort-on-first-failure loop: when every member
before `mid` succeeds and `mid` fails, the attempted members are exactly
the prefix up to and including `mid` (no later member is attempted) and
the returned error is `mid`'s own error.  With `continue_on_error = true`
every member is attempted, in order, and the call returns success with
the failures merely recorded. -/
theorem run_sequential_with_error_handling_policy
    (members : List WorkspaceMember)
    (outcome : WorkspaceMember → Except CyrusError Unit)
    (continue_on_error : Bool) :
    (run_sequential_with_error_handling members outcome continue_on_error =
      if continue_on_error then (members.map (fun m => m.name), .ok ())
      else run_sequential outcome members) ∧
    (∀ (pre rest : List WorkspaceMember) (mid : WorkspaceMember)
        (e : CyrusError),
      members = pre ++ mid :: rest →
      (∀ p ∈ pre, outcome p = .ok ()) →
      outcome mid = .error e →
      run_sequential outcome members =
        (pre.map (fun m => m.name) ++ [mid.name], .error e)) := by
  constructor
  · cases continue_on_error with
    | true =>
      simpa [run_sequential_with_error_handling] using
        seqLoop_coe_all outcome members false
    | false =>
      simpa [run_sequential_with_error_handling] using
        seqLoop_abort outcome members
  · intro pre rest mid e hsplit hpre hmid
    subst hsplit
    induction pre with
    | nil => simp [run_sequential, hmid]
    | cons p pre ih =>
      have hp : outcome p = .ok () := hpre p (List.mem_cons_self _ _)
      have ih2 := ih (fun q hq => hpre q (List.mem_cons_of_mem _ hq))
      simp [run_sequential, hp, ih2]

/-- C6 (witness): for members H (ok), I (exit 7), J with
`continue_on_error = false`, the sequential engine attempts exactly H
then I and returns I's error, never attempting J. -/
theorem run_sequential_with_error_handling_policy_witness :
    run_sequential outcome6 [mH6, mI6, mJ6] =
      (["H", "I"], .error (.CommandFailed "build" (some 7))) :=
  (run_sequential_with_error_handling_policy [mH6, mI6, mJ6] outcome6
      false).2
    [mH6] [mJ6] mI6 (.CommandFailed "build" (some 7)) rfl
    (by intro p hp; rcases List.mem_singleton.mp hp with rfl; rfl) rfl

/-!
## Claim C7: member registry mutations

`add_member` (lines 146-210) and `remove_member` (lines 213-237).
Filesystem effects (directory creation, scaffolding, subtree deletion,
persistence) are inputs/ignored: `member_path_exists` stands for
`member_path.exists()` and `detected` for `detect_project_language`;
`save_workspace` on the success path is modelled as succeeding.  Both
functions return the (possibly updated) manager state together with the
result, mirroring the mutation of `self.current_workspace`.
-/

theorem findIdx?_none_of_all_false {l : List WorkspaceMember}
    {p : WorkspaceMember → Bool} (h : ∀ x ∈ l, p x = false) :
    l.findIdx? p = none := by
  induction l with
  | nil => rfl
  | cons a l ih =>
    have ha := h a (List.mem_cons_self _ _)
    have ih2 := ih (fun x hx => h x (List.mem_cons_of_mem _ hx))
    simp [List.findIdx?_cons, ha, ih2]

/-- C7: adding a member whose name already exists fails with the
duplicate-member error (`Workspace` error naming the member) and returns
the manager — member list, scripts, timestamps — unchanged; removing a
member whose name is absent fails with the member-not-found error, again
with the manager unchanged. -/
theorem add_remove_member_errors_leave_state
    (mgr : WorkspaceManager) (w : Workspace) (nm1 nm2 : String)
    (path : String) (language : Option String) (create_project : Bool)
    (member_path_exists : Bool) (detected : Option String) (now : Nat)
    (delete_files : Bool)
    (hw : mgr.current_workspace = some w)
    (h1 : ∃ m ∈ w.members, m.name = nm1)
    (h2 : ∀ m ∈ w.members, m.name ≠ nm2) :
    add_member mgr nm1 path language create_project member_path_exists
        detected now =
      (mgr, .error (.Workspace
        ("Member " ++ sq ++ nm1 ++ sq ++ " already exists"))) ∧
    remove_member mgr nm2 delete_files now =
      (mgr, .error (.Workspace
        ("Member " ++ sq ++ nm2 ++ sq ++ " not found"))) := by
  constructor
  · have hdup : w.members.any (fun m => m.name == nm1) = true := by
      rcases h1 with ⟨m, hm, hname⟩
      exact List.any_eq_true.mpr ⟨m, hm, by simp [hname]⟩
    simp [add_member, hw, hdup]
  · have hnone : w.members.findIdx? (fun m => m.name == nm2) = none :=
      findIdx?_none_of_all_false (fun m hm => by simp [h2 m hm])
    simp [remove_member, hw, hnone]

/-- C7 (witness): adding a duplicate `"K"` and removing an unknown `"L"`
both fail on the concrete one-member workspace and leave the manager
unchanged. -/
theorem add_remove_member_errors_leave_state_witness :
    add_member mgr7 "K" "k2" none false true none 5 =
      (mgr7, .error (.Workspace
        ("Member " ++ sq ++ "K" ++ sq ++ " already exists"))) ∧
    remove_member mgr7 "L" false 5 =
      (mgr7, .error (.Workspace
        ("Member " ++ sq ++ "L" ++ sq ++ " not found"))) :=
  add_remove_member_errors_leave_state mgr7 ws7 "K" "L" "k2" none false
    true none 5 false rfl
    ⟨⟨"K", "k", "rust", true, none, []⟩, by decide, rfl⟩
    (by intro m hm; fin_cases hm; decide)

/-!
## Claims C8 and C10: the script runner

`run_script` (lines 341-370).  The Rust
`script.command.split_whitespace().collect()` and the indexing
`command_parts[0]` are translated below; the indexing of an empty vector
is a Rust panic, which the model makes an explicit `ScriptResult`
constructor.
-/

theorem resultsLoop_all_ok (results : List (Except CyrusError Unit))
    (coe he : Bool) (h : ∀ r ∈ results, r = .ok ()) :
    resultsLoop results coe he = .ok he := by
  induction results with
  | nil => rfl
  | cons r rest ih =>
    have hr := h r (List.mem_cons_self _ _)
    subst hr
    exact ih (fun r hr => h r (List.mem_cons_of_mem _ hr))

theorem run_parallel_weh_all_ok (members : List WorkspaceMember)
    (outcome : WorkspaceMember → Except CyrusError Unit) (coe : Bool)
    (h : ∀ m ∈ members, outcome m = .ok ()) :
    run_parallel_with_error_handling members outcome coe = .ok () := by
  have hall : ∀ r ∈ members.map outcome, r = .ok () := by
    intro r hr
    rcases List.mem_map.mp hr with ⟨m, hm, rfl⟩
    exact h m hm
  rw [run_parallel_with_error_handling,
    resultsLoop_all_ok (members.map outcome) coe false hall]
  simp

theorem seqLoop_all_ok (outcome : WorkspaceMember → Except CyrusError Unit)
    (coe : Bool) (members : List WorkspaceMember)
    (h : ∀ m ∈ members, outcome m = .ok ()) :
    seqLoop outcome coe members false =
      (members.map (fun m => m.name), .ok ()) := by
  induction members with
  | nil => simp [seqLoop]
  | cons m rest ih =>
    have hm := h m (List.mem_cons_self _ _)
    simp [seqLoop, hm, ih (fun m hm => h m (List.mem_cons_of_mem _ hm))]

/-- Under all-successful outcomes, `run_script` on an existing script
with a nonempty command completes on exactly the effective targets. -/
theorem run_script_completed_of_all_ok (w : Workspace) (sname : String)
    (outcome : WorkspaceMember → Except CyrusError Unit)
    (script : WorkspaceScript)
    (hs : lookupScript w.scripts sname = some script)
    (htok : split_whitespace script.command ≠ [])
    (hok : ∀ m, outcome m = .ok ()) :
    run_script w sname outcome =
      .completed ((effective_targets w script).map (fun m => m.name)) := by
  rcases htoks : split_whitespace script.command with _ | ⟨t, ts⟩
  · exact absurd htoks htok
  · have hpweh := run_parallel_weh_all_ok (effective_targets w script)
      outcome script.continue_on_error (fun m _ => hok m)
    have hseq : run_sequential_with_error_handling
        (effective_targets w script) outcome script.continue_on_error =
        ((effective_targets w script).map (fun m => m.name), .ok ()) := by
      cases hcoe : script.continue_on_error with
      | true =>
        rw [run_sequential_with_error_handling]
        exact seqLoop_coe_all outcome (effective_targets w script) false
      | false =>
        rw [run_sequential_with_error_handling]
        exact seqLoop_all_ok outcome false (effective_targets w script)
          (fun m _ => hok m)
    cases hpar : script.run_parallel with
    | true => simp [run_script, hs, htoks, hpar, hpweh]
    | false => simp [run_script, hs, htoks, hpar, hseq]

theorem filter_map_name_invariant (g : WorkspaceMember → WorkspaceMember)
    (p : WorkspaceMember → Bool) (hp : ∀ m, p (g m) = p m)
    (hname : ∀ m, (g m).name = m.name) (l : List WorkspaceMember) :
    ((l.map g).filter p).map (fun m => m.name) =
      (l.filter p).map (fun m => m.name) := by
  induction l with
  | nil => rfl
  | cons m rest ih =>
    simp only [List.map_cons, List.filter_cons, hp m]
    by_cases hpm : p m = true
    · simp [hpm, hname m, ih]
    · simp only [Bool.not_eq_true] at hpm
      simp [hpm, ih]

/-- C8: `run_script` fails with the script-not-found error when the name
is absent; otherwise, under all-successful command outcomes and a command
with at least one token, it executes on exactly the script's
`run_in_members` subset intersected with the enabled members (all enabled
members when the subset is empty), in registry order — and the result is
unchanged by replacing every member's dependency list, so execution
bypasses dependency ordering entirely. -/
theorem run_script_targets_and_bypass (w : Workspace) (sname : String)
    (outcome : WorkspaceMember → Except CyrusError Unit)
    (hok : ∀ m, outcome m = .ok ()) :
    (lookupScript w.scripts sname = none →
      run_script w sname outcome =
        .failed (.Workspace
          ("Script " ++ sq ++ sname ++ sq ++ " not found"))) ∧
    (∀ script, lookupScript w.scripts sname = some script →
      split_whitespace script.command ≠ [] →
      run_script w sname outcome =
        .completed ((effective_targets w script).map (fun m => m.name))) ∧
    (∀ f script, lookupScript w.scripts sname = some script →
      split_whitespace script.command ≠ [] →
      run_script { w with members := w.members.map (setDeps f) } sname
          outcome =
        run_script w sname outcome) := by
  refine ⟨?_, ?_, ?_⟩
  · intro hnone
    simp [run_script, hnone]
  · intro script hs htok
    exact run_script_completed_of_all_ok w sname outcome script hs htok hok
  · intro f script hs htok
    have hs2 : lookupScript
        ({ w with members := w.members.map (setDeps f) } : Workspace).scripts
        sname = some script := hs
    have h2 := run_script_completed_of_all_ok
      { w with members := w.members.map (setDeps f) } sname outcome script
      hs2 htok hok
    have h1 := run_script_completed_of_all_ok w sname outcome script hs
      htok hok
    rw [h1, h2]
    rw [effective_targets, effective_targets]
    by_cases hemp : script.run_in_members.isEmpty = true
    · rw [if_pos hemp, if_pos hemp]
      exact congrArg ScriptResult.completed
        (filter_map_name_invariant (setDeps f) (fun m => m.enabled)
          (fun m => rfl) (fun m => rfl) w.members)
    · rw [if_neg hemp, if_neg hemp]
      exact congrArg ScriptResult.completed
        (filter_map_name_invariant (setDeps f)
          (fun m => script.run_in_members.contains m.name && m.enabled)
          (fun m => rfl) (fun m => rfl) w.members)

/-- C8 (witness): resolving `lint` (`run_in_members = ["A"]`) when B and
C also exist executes on exactly A, although A depends on B. -/
theorem run_script_targets_and_bypass_witness :
    run_script wsDemo "lint" okOutcome = .completed ["A"] :=
  (run_script_targets_and_bypass wsDemo "lint" okOutcome
      (fun _ => rfl)).2.1 lintScript rfl (by decide)

/-!
## Claim C9: persistence of the descriptor

`save_workspace` (lines 415-424) serializes the workspace and then calls
`std::fs::write(workspace_file, content)` on
`path.join("cyrus-workspace.toml")`.  The filesystem interaction is
modelled as the trace of filesystem operations the function issues;
`std::fs::write` opens the target with truncation and then writes, so an
interrupted write leaves the truncated prefix of the new content at the
target path.
-/

/-- C9: the claim requires write-to-temp-then-atomic-rename discipline
(or equivalent), so that a failed save leaves the previous descriptor
intact.  The code's trace is a single direct truncating write to the
descriptor path: a write interrupted at 0 bytes leaves the descriptor
empty — not the previously persisted content — so a failed save does
corrupt the prior on-disk state. -/
theorem save_workspace_direct_write_not_atomic :
    save_workspace_ops "root" "[workspace] name = neww" =
      [.write "root/cyrus-workspace.toml" "[workspace] name = neww"] ∧
    writes_directly_to
      (save_workspace_ops "root" "[workspace] name = neww")
      "root/cyrus-workspace.toml" = true ∧
    interrupted_write "[workspace] name = neww" 0 = "" ∧
    ("" : String) ≠ "[workspace] name = old" := by
  exact ⟨rfl, rfl, rfl, by decide⟩

/-- C10: the claim says `run_script` never panics, in particular on a
script whose command is empty or whitespace-only.  In the code,
`split_whitespace` of a blank command yields no tokens and
`command_parts[0]` is an out-of-bounds index: `run_script` panics instead
of returning an error. -/
theorem run_script_blank_command_panics :
    run_script wsBroken "broken" okOutcome =
      .panicked "index out of bounds: the len is 0 but the index is 0" :=
  rfl

end Cyrus
